import Mathlib

/-!
Verification development for the profit_graph repository.

The pipeline (src/knowledge_processor.py) runs Strategist → Scout →
Architect → Neo4j Synchronizer over one transcript; src/graph_refiner.py is
a second pass that derives relationships between entities.  This file gives
a shallow embedding of those components and proves the spec's claims about
them.

Modelling conventions:
- The Neo4j property graph is a `Graph` record of node lists (keyed as the
  Cypher statements key them) and edge lists.  Cypher `MERGE` is modelled as
  create-if-absent-else-match; `MERGE ... SET` on a keyed node is an upsert
  that updates every matching node (Cypher `SET` runs once per matched row).
- External calls (Gemini, Perplexity, Neo4j availability, the filesystem)
  are modelled by explicit outcome parameters: a Python exception caught by
  a `try/except` becomes a branch on such a parameter.
- JSON values are the inductive `JVal`; `json.loads` is modelled by an
  `Option JVal` parse-outcome parameter (parsing itself is Python stdlib).
- Timestamps (`datetime()`) are abstract `Nat` parameters.
-/

namespace ProfitGraph

/-- A JSON value as produced by `json.loads`.  Numbers are modelled as
integers (no claim depends on float values); objects produced by the parser
carry each key at most once. -/
inductive JVal where
  | jnull : JVal
  | jbool : Bool → JVal
  | jnum : Int → JVal
  | jstr : String → JVal
  | jarr : List JVal → JVal
  | jobj : List (String × JVal) → JVal
  deriving Inhabited

/-- Python `d.get(k)` on a parsed-JSON dict: the value at key `k`, if the
key is present. -/
def jget (fs : List (String × JVal)) (k : String) : Option JVal :=
  (fs.find? (fun p => p.1 = k)).map (fun p => p.2)

/-- Python truthiness of a parsed-JSON value (`if marketing:` etc.). -/
def jtruthy : JVal → Bool
  | .jnull => false
  | .jbool b => b
  | .jnum n => n ≠ 0
  | .jstr s => s ≠ ""
  | .jarr xs => !xs.isEmpty
  | .jobj fs => !fs.isEmpty

/-- An entity record handed to the Synchronizer: a JSON object with the
three keys the code reads (`name`, `type`, `detail`); `none` models an
absent key.  Values are modelled at `String` (the shape the prompt asks
for); JSON-null or non-string values, which the Python code would pass
through to the graph driver and fail there, are not distinguished from
absent keys. -/
structure EntRec where
  name : Option String
  type : Option String
  detail : Option String
  deriving Repr, DecidableEq, Inhabited

/-- An `Entity` node of the graph: keyed by `name`, with an optional
`type` property (the Refiner creates entities without setting a type). -/
structure EntityNode where
  name : String
  type : Option String
  deriving Repr, DecidableEq, Inhabited

/-- The shared Neo4j state, restricted to the node labels and relationship
types the repository's Cypher statements touch.  Node lists are keyed as
the `MERGE` statements key them (`Video.id`, `Strategy.id`, `Research.id`,
`Entity.name`, `RefinerLog.timestamp`). -/
structure Graph where
  /-- `Video` nodes: id ↦ `last_processed` timestamp. -/
  videos : List (String × Nat)
  /-- `Strategy` nodes: id ↦ `content`. -/
  strategies : List (String × String)
  /-- `Research` nodes: id ↦ `content`. -/
  researches : List (String × String)
  /-- `Entity` nodes, keyed by name. -/
  entities : List EntityNode
  /-- `YIELDS_STRATEGY` edges (video id, strategy id). -/
  yields : List (String × String)
  /-- `BASED_ON_RESEARCH` edges (strategy id, research id). -/
  basedOn : List (String × String)
  /-- `MENTIONS` edges (strategy id, entity name, `detail` property). -/
  mentions : List (String × String × Option String)
  /-- `REFINED_BY` edges (strategy id, refiner-log timestamp). -/
  refinedBy : List (String × Nat)
  /-- `RefinerLog` nodes, keyed by timestamp. -/
  refinerLogs : List Nat
  /-- Refiner-created typed edges between entities (source, rel, target). -/
  entityRels : List (String × String × String)
  deriving Repr, DecidableEq, Inhabited

/-- The empty graph store. -/
def emptyGraph : Graph := ⟨[], [], [], [], [], [], [], [], [], []⟩

/-- Cypher `MERGE (n {key: k}) SET n.val = v` over a keyed node list:
if a node with the key exists, every matching node's value is updated,
otherwise a new node is created. -/
def upsert {α : Type} (l : List (String × α)) (k : String) (v : α) :
    List (String × α) :=
  if l.any (fun p => p.1 = k) then
    l.map (fun p => if p.1 = k then (k, v) else p)
  else l ++ [(k, v)]

/-- Cypher `MERGE` of an edge (or keyless node) that carries no mutable
property: created only if not already present. -/
def mergeElem {α : Type} [DecidableEq α] (l : List α) (e : α) : List α :=
  if e ∈ l then l else l ++ [e]

end ProfitGraph

namespace ProfitGraph

/-! ### Graph Synchronizer (knowledge_processor.sync_to_neo4j) -/

/-- The `query_base` Cypher statement of `sync_to_neo4j`: upserts the
`Video` (refreshing `last_processed` to the current time `now`), the
`Strategy` keyed `vid ++ "_strat"` (content overwritten), the `Research`
keyed `vid ++ "_res"`, and merges the two linking edges. -/
def runQueryBase (g : Graph) (vid strategy research : String) (now : Nat) : Graph :=
  let g1 := { g with videos := upsert g.videos vid now }
  let g2 := { g1 with strategies := upsert g1.strategies (vid ++ "_strat") strategy }
  let g3 := { g2 with researches := upsert g2.researches (vid ++ "_res") research }
  let g4 := { g3 with yields := mergeElem g3.yields (vid, vid ++ "_strat") }
  { g4 with basedOn := mergeElem g4.basedOn (vid ++ "_strat", vid ++ "_res") }

/-- One `UNWIND` row of the `query_entities` statement:
`MERGE (e:Entity {name: item.name}) SET e.type = item.type` followed by
`MERGE (s)-[:MENTIONS {detail: item.detail}]->(e)`.  A missing `name`
key reaches the driver as null; that pathological case is modelled as the
empty name (the repository never produces it: the batch is pre-filtered). -/
def mergeEntityMention (g : Graph) (sid : String) (item : EntRec) : Graph :=
  let nm := item.name.getD ""
  let g1 :=
    if g.entities.any (fun e => e.name = nm) then
      { g with entities :=
          g.entities.map (fun (e : EntityNode) =>
            if e.name = nm then { e with type := item.type } else e) }
    else { g with entities := g.entities ++ [(⟨nm, item.type⟩ : EntityNode)] }
  { g1 with mentions := mergeElem g1.mentions (sid, nm, item.detail) }

/-- The `query_entities` Cypher statement: `MATCH` the strategy node keyed
by the video id (if absent the statement matches no rows and does
nothing), then `UNWIND` the batch and merge each entity and its
`MENTIONS` edge. -/
def runQueryEntities (g : Graph) (vid : String) (batch : List EntRec) : Graph :=
  if g.strategies.any (fun p => p.1 = vid ++ "_strat") then
    batch.foldl (fun h item => mergeEntityMention h (vid ++ "_strat") item) g
  else g

/-- The pre-sync filter of `sync_to_neo4j`:
`[e for e in entities if 'name' in e and 'type' in e]`. -/
def valid_entities (entities : List EntRec) : List EntRec :=
  entities.filter (fun e => e.name.isSome && e.type.isSome)

/-- `sync_to_neo4j`: no-ops when the Neo4j connection parameters are absent
(`configPresent = false`); a Neo4j error (`dbFail = true`) is caught and
logged, modelled as leaving the graph unchanged.  Otherwise runs
`query_base`, filters the entity batch, and runs `query_entities` when the
filtered batch is non-empty. -/
def sync_to_neo4j (configPresent dbFail : Bool) (g : Graph)
    (vid strategy_text research_text : String) (now : Nat)
    (entities : List EntRec) : Graph :=
  if !configPresent then g
  else if dbFail then g
  else
    let g1 := runQueryBase g vid strategy_text research_text now
    let ve := valid_entities entities
    if ve.isEmpty then g1 else runQueryEntities g1 vid ve

end ProfitGraph

namespace ProfitGraph

/-! ### Text Normalizer (knowledge_processor.clean_json_text) -/

/-- Whitespace for Python `str.strip()`. -/
def isSpace (c : Char) : Bool :=
  c = ' ' || c = '\n' || c = '\t' || c = '\r' || c = '\x0b' || c = '\x0c'

/-- Python `text.strip()`. -/
def pyStrip (s : String) : String :=
  ⟨((s.data.dropWhile isSpace).reverse.dropWhile isSpace).reverse⟩

/-- Python `text.startswith(pre)`. -/
def pyStartsWith (s pre : String) : Bool :=
  s.data.take pre.data.length = pre.data

/-- Python `text.endswith(suf)`. -/
def pyEndsWith (s suf : String) : Bool :=
  s.data.drop (s.data.length - suf.data.length) = suf.data && suf.data.length ≤ s.data.length

/-- Python `text[n:]` (character slicing). -/
def pyDrop (s : String) (n : Nat) : String := ⟨s.data.drop n⟩

/-- Python `text[:-n]` (character slicing; empty when `n ≥ len`). -/
def pyDropRight (s : String) (n : Nat) : String := ⟨s.data.take (s.data.length - n)⟩

/-- `clean_json_text` of the processor: strip whitespace, drop a leading
markdown fence (`startswith` checks, character-indexed slices as in
Python), drop a trailing fence, strip again. -/
def clean_json_text (text : String) : String :=
  let t := pyStrip text
  let t1 := if pyStartsWith t "```json" then pyDrop t 7
            else if pyStartsWith t "```" then pyDrop t 3
            else t
  let t2 := if pyEndsWith t1 "```" then pyDropRight t1 3 else t1
  pyStrip t2

/-- Substring occurrence test (Python `pat in s`), used only to state
facts about dossier contents. -/
def strContains (s pat : String) : Bool :=
  (List.range (s.length + 1)).any (fun i => (s.toList.drop i).take pat.length = pat.toList)

/-! ### Scout stage (knowledge_processor.execute_research_plan) -/

/-- Outcome of one Perplexity request: HTTP 200 with an extracted answer,
a non-200 status, or a raised exception (network error, malformed
response body). -/
inductive FetchResult where
  | success (answer : String)
  | apiError (status : Nat)
  | netError (msg : String)
  deriving Repr, DecidableEq, Inhabited

/-- The research plan handed to the Scout: a bare list, a dict (with the
two keys the code probes, `none` = key absent), or any other value. -/
inductive ScoutPlan where
  | plist (qs : List String)
  | pdict (research_questions : Option (List String)) (questions : Option (List String))
  | pother
  deriving Repr, DecidableEq, Inhabited

/-- Query extraction of `execute_research_plan`: a bare list is taken
as-is; on a dict, `research_questions` is read (default `[]`) and, when
that is empty and a `questions` key exists, that key is used instead. -/
def scout_queries : ScoutPlan → List String
  | .plist qs => qs
  | .pdict rq qs =>
      let queries := rq.getD []
      if queries.isEmpty && qs.isSome then qs.getD [] else queries
  | .pother => []

/-- `execute_research_plan`: returns `""` for a non-list non-dict plan or
an empty query list; otherwise issues one request per query, sequentially.
On a 200 response the `"Q: ...\nA: ...\n"` block is appended to
`research_summary`; on a non-200 status or an exception the code assigns a
placeholder `answer` (`"API Error"` / the exception text) but appends
nothing, exactly as the source does.  The dossier joins the collected
blocks with `"\n---\n"`. -/
def execute_research_plan (plan : ScoutPlan) (fetch : String → FetchResult) : String :=
  match plan with
  | .pother => ""
  | _ =>
    let queries := scout_queries plan
    if queries.isEmpty then ""
    else
      let research_summary := queries.foldl (fun acc query_text =>
        match fetch query_text with
        | .success answer => acc ++ ["Q: " ++ query_text ++ "\nA: " ++ answer ++ "\n"]
        | .apiError _ => acc
        | .netError _ => acc) []
      String.intercalate "\n---\n" research_summary

/-! ### Architect stage (knowledge_processor.synthesize_strategy) -/

/-- Python `repr` of a parsed-JSON value, as it appears nested inside
`str()` of a container (string escaping inside quotes is not modelled). -/
def pyRepr : JVal → String
  | .jnull => "None"
  | .jbool b => if b then "True" else "False"
  | .jnum n => toString n
  | .jstr s => "'" ++ s ++ "'"
  | .jarr xs => "[" ++ String.intercalate ", " (xs.attach.map (fun x => pyRepr x.1)) ++ "]"
  | .jobj fs => "\x7b" ++ String.intercalate ", "
      (fs.attach.map (fun p => "'" ++ p.1.1 ++ "': " ++ pyRepr p.1.2)) ++ "\x7d"
termination_by v => sizeOf v
decreasing_by
  · simp_wf
    have h := List.sizeOf_lt_of_mem x.2
    omega
  · simp_wf
    obtain ⟨⟨a, b⟩, hmem⟩ := p
    have h := List.sizeOf_lt_of_mem hmem
    simp only [Prod.mk.sizeOf_spec] at h
    simp only []
    omega

/-- Python `str()` of a parsed-JSON value (as used by an f-string): a
string is itself, containers print via `repr`. -/
def pyStr : JVal → String
  | .jstr s => s
  | v => pyRepr v

/-- The string value at key `k`, when the key is present with a string
value. -/
def getStrField (fs : List (String × JVal)) (k : String) : Option String :=
  match jget fs k with
  | some (.jstr s) => some s
  | _ => none

/-- One element of the Architect's `entities` list, as a record: the three
keys the downstream code reads.  A non-object element (which Python keeps
and which then fails inside the Synchronizer's comprehension) is modelled
as a record with all keys absent. -/
def jToEnt : JVal → EntRec
  | .jobj fs => ⟨getStrField fs "name", getStrField fs "type", getStrField fs "detail"⟩
  | _ => ⟨none, none, none⟩

/-- `data.get("entities", [])`, converted to records; a non-list value is
modelled as the empty list (Python would pass it through and degrade
downstream). -/
def entsOf (fs : List (String × JVal)) : List EntRec :=
  match jget fs "entities" with
  | some (.jarr xs) => xs.map jToEnt
  | _ => []

/-- `_d[0] if isinstance(_d, list) else _d`; `none` models the
`IndexError` on an empty list. -/
def firstIfList : JVal → Option JVal
  | .jarr [] => none
  | .jarr (x :: _) => some x
  | v => some v

/-- The marketing section appended to the brief when a truthy `marketing`
value is present. -/
def marketingSection (vt li : String) : String :=
  "\n\n## 🚀 Marketing Assets\n**🐦 Viral Tweet:** " ++ vt ++ "\n\n**💼 LinkedIn:**\n" ++ li

/-- The Architect's inner `try` block over the parse outcome of the
cleaned response text: `none` models any exception caught by the bare
`except` (parse failure, `_d[0]` on an empty list, `.get` on a non-dict,
`+=`/`+` on non-string values).  On success returns the smart filename,
the content value (still a JSON value: a non-string `content` with falsy
`marketing` passes through to the file write), and the entity records. -/
def architect_inner (parsed : Option JVal) : Option (String × JVal × List EntRec) :=
  match parsed.bind firstIfList with
  | some (.jobj fs) =>
    let smart := pyStr ((jget fs "filename").getD (.jstr "strategy.md"))
    let content := (jget fs "content").getD (.jstr "")
    let marketing := (jget fs "marketing").getD (.jobj [])
    let entities := entsOf fs
    if jtruthy marketing then
      match marketing with
      | .jobj ms =>
        match content, (jget ms "viral_tweet").getD (.jstr ""),
            (jget ms "linkedin").getD (.jstr "") with
        | .jstr c, .jstr vt, .jstr li =>
            some (smart, .jstr (c ++ marketingSection vt li), entities)
        | _, _, _ => none
      | _ => none
    else some (smart, content, entities)
  | _ => none

/-- Result of the Architect stage: the returned `(content, entities)`
tuple (brief `none` when the stage's outer handler fired) plus the name of
the persisted brief file, `none` when nothing was persisted. -/
structure ArchOut where
  brief : Option String
  entities : List EntRec
  savedFile : Option String
  deriving Repr, DecidableEq, Inhabited

/-- `synthesize_strategy`: `apiFail` models an exception from the Gemini
call (or a `None` response body), `fileWriteFail` an exception anywhere in
the save/telemetry section; both are caught by the outer handler, which
returns `(None, [])`.  `parse` is the `json.loads` outcome on the cleaned
text.  On an inner-block exception the raw cleaned text becomes the brief
with no entities and the fallback filename. -/
def synthesize_strategy (apiFail fileWriteFail : Bool) (rawResponse : String)
    (parse : String → Option JVal) (video_id : String) : ArchOut :=
  if apiFail then ⟨none, [], none⟩
  else
    let text_response := clean_json_text rawResponse
    match architect_inner (parse text_response) with
    | none =>
        if fileWriteFail then ⟨none, [], none⟩
        else ⟨some text_response, [], some (video_id ++ "_strategy_fallback.md")⟩
    | some (smart, contentJ, entities) =>
        match contentJ with
        | .jstr c =>
            if fileWriteFail then ⟨none, [], none⟩
            else ⟨some c, entities, some (video_id ++ "_" ++ smart)⟩
        | _ => ⟨none, [], none⟩

/-! ### Run Controller (knowledge_processor.run_pipeline) -/

/-- Result of one `run_pipeline` invocation: the graph store, the history
file contents, whether `mark_as_complete` ran, and whether
`sync_to_neo4j` was invoked. -/
structure PipelineResult where
  graph : Graph
  history : List String
  marked : Bool
  synced : Bool

/-- `run_pipeline` over one transcript.  `loadResult` is the outcome of
`load_transcript` (`none` = exception, otherwise the `transcript_text`
field, possibly empty); `research_data` stands for the Scout's dossier
(the Strategist/Scout outputs gate nothing).  The transcript and the brief
are tested for Python truthiness (`if not transcript_text`,
`if strategy_text`), and `mark_as_complete` runs right after the sync call
returns — `sync_to_neo4j` catches every Neo4j error internally. -/
def run_pipeline (g : Graph) (history : List String) (video_id : String)
    (loadResult : Option String)
    (apiFail fileWriteFail : Bool) (rawResponse : String) (parse : String → Option JVal)
    (research_data : String) (configPresent dbFail : Bool) (now : Nat) : PipelineResult :=
  match loadResult with
  | none => ⟨g, history, false, false⟩
  | some transcript_text =>
    if transcript_text = "" then ⟨g, history, false, false⟩
    else
      let a := synthesize_strategy apiFail fileWriteFail rawResponse parse video_id
      match a.brief with
      | none => ⟨g, history, false, false⟩
      | some strategy_text =>
        if strategy_text = "" then ⟨g, history, false, false⟩
        else
          ⟨sync_to_neo4j configPresent dbFail g video_id strategy_text research_data now
             a.entities,
           history ++ [video_id], true, true⟩

/-! ### Relationship Refiner (graph_refiner.py) -/

/-- One `{source, target, rel}` triple identified by the model. -/
structure Triple where
  source : String
  target : String
  rel : String
  deriving Repr, DecidableEq, Inhabited

/-- The per-triple Cypher of `apply_relationships`: merge both entity
nodes by name only (no type set — existing nodes are untouched, new ones
have no type) and merge the typed relationship, whose type is the
model-supplied verb interpolated directly into the statement. -/
def applyTriple (g : Graph) (t : Triple) : Graph :=
  let g1 := if g.entities.any (fun e => e.name = t.source) then g
            else { g with entities := g.entities ++ [(⟨t.source, none⟩ : EntityNode)] }
  let g2 := if g1.entities.any (fun e => e.name = t.target) then g1
            else { g1 with entities := g1.entities ++ [(⟨t.target, none⟩ : EntityNode)] }
  { g2 with entityRels := mergeElem g2.entityRels (t.source, t.rel, t.target) }

/-- The mark-as-refined Cypher: `MATCH` the strategy (no rows → nothing
happens), `MERGE` a `RefinerLog` keyed by the current timestamp, `MERGE`
the `REFINED_BY` edge. -/
def markRefined (g : Graph) (sid : String) (now : Nat) : Graph :=
  if g.strategies.any (fun p => p.1 = sid) then
    let g1 := { g with refinerLogs := mergeElem g.refinerLogs now }
    { g1 with refinedBy := mergeElem g1.refinedBy (sid, now) }
  else g

/-- `apply_relationships`: each triple's merge is attempted and an
exception (`tripleOk r = false`, e.g. names with characters illegal in
Cypher) skips just that triple; the mark-as-refined statement always runs
after the loop. -/
def apply_relationships (g : Graph) (relationships : List Triple)
    (tripleOk : Triple → Bool) (strategy_id : String) (now : Nat) : Graph :=
  let g1 := relationships.foldl (fun h r => if tripleOk r then applyTriple h r else h) g
  markRefined g1 strategy_id now

/-- Whether a strategy has an outgoing `REFINED_BY` edge to a `RefinerLog`
node (the `WHERE NOT (s)-[:REFINED_BY]->(:RefinerLog)` pattern). -/
def hasRefinedBy (g : Graph) (sid : String) : Bool :=
  g.refinedBy.any (fun p => p.1 = sid && g.refinerLogs.contains p.2)

/-- `get_unrefined_strategies`: strategies with no outgoing `REFINED_BY`
edge, `LIMIT 5`, returned as (id, content) rows. -/
def get_unrefined_strategies (g : Graph) : List (String × String) :=
  (g.strategies.filter (fun s => !hasRefinedBy g s.1)).take 5

/-! ### Counting helpers used by the claims -/

/-- The names of the `Entity` nodes. -/
def entityNames (g : Graph) : List String := g.entities.map (fun e => e.name)

/-- How many `Entity` nodes carry the name `n`. -/
def entityCount (g : Graph) (n : String) : Nat :=
  (entityNames g).countP (fun x => x = n)

/-- How many `MENTIONS` edges run from strategy `sid` to an entity named
`n`. -/
def mentionCount (g : Graph) (sid n : String) : Nat :=
  g.mentions.countP (fun m => m.1 = sid && m.2.1 = n)

end ProfitGraph

namespace ProfitGraph

/-! ### Upsert lemmas -/

theorem upsert_key_mem {α : Type} (l : List (String × α)) (k : String) (v : α) :
    (upsert l k v).any (fun p => p.1 = k) = true := by
  unfold upsert
  split
  · rename_i h
    rw [List.any_eq_true] at h ⊢
    obtain ⟨p, hp, hk⟩ := h
    simp only [decide_eq_true_eq] at hk
    exact ⟨(k, v), List.mem_map.mpr ⟨p, hp, by simp [hk]⟩, by simp⟩
  · rw [List.any_eq_true]
    exact ⟨(k, v), by simp, by simp⟩

theorem upsert_keys_nodup {α : Type} (l : List (String × α)) (k : String) (v : α)
    (h : (l.map Prod.fst).Nodup) : ((upsert l k v).map Prod.fst).Nodup := by
  unfold upsert
  split
  · rename_i hany
    have : (l.map (fun p => if p.1 = k then (k, v) else p)).map Prod.fst = l.map Prod.fst := by
      rw [List.map_map]
      apply List.map_congr_left
      intro p _
      by_cases hp : p.1 = k
      · simp [hp]
      · simp [hp]
    rw [this]; exact h
  · rename_i hany
    rw [List.map_append, List.nodup_append]
    refine ⟨h, by simp, ?_⟩
    intro a ha
    simp only [List.map_cons, List.map_nil, List.mem_singleton]
    intro hk
    subst hk
    rw [List.any_eq_true] at hany
    apply hany
    rw [List.mem_map] at ha
    obtain ⟨p, hp, hpa⟩ := ha
    exact ⟨p, hp, by simp [hpa]⟩

theorem filter_map_update {α : Type} (l : List (String × α)) (k : String) (v : α)
    (h : (l.map Prod.fst).Nodup) :
    (l.map (fun p => if p.1 = k then (k, v) else p)).filter (fun p => p.1 = k)
      = if l.any (fun p => p.1 = k) then [(k, v)] else [] := by
  induction l with
  | nil => simp
  | cons p t ih =>
    simp only [List.map_cons, List.nodup_cons] at h
    by_cases hp : p.1 = k
    · have hkt : ∀ q ∈ t, ¬ q.1 = k := by
        intro q hq hqk
        exact h.1 (hp ▸ hqk ▸ List.mem_map.mpr ⟨q, hq, rfl⟩)
      have hmap : (t.map (fun q => if q.1 = k then (k, v) else q)).filter
          (fun q => q.1 = k) = [] := by
        rw [List.filter_eq_nil_iff]
        intro q hq
        rw [List.mem_map] at hq
        obtain ⟨r, hr, hrq⟩ := hq
        have := hkt r hr
        subst hrq
        simp [this]
      have hanyh : (p :: t).any (fun q => q.1 = k) = true := by
        rw [List.any_eq_true]
        exact ⟨p, List.mem_cons_self p t, by simp [hp]⟩
      simp [hp, hmap, hanyh]
    · have := ih h.2
      by_cases hany : t.any (fun q => q.1 = k) = true
      · simp [hp, hany, this]
      · simp only [Bool.not_eq_true] at hany
        simp [hp, hany, this]

theorem filter_upsert_self {α : Type} (l : List (String × α)) (k : String) (v : α)
    (h : (l.map Prod.fst).Nodup) :
    (upsert l k v).filter (fun p => p.1 = k) = [(k, v)] := by
  unfold upsert
  split
  · rename_i hany
    rw [filter_map_update l k v h, if_pos hany]
  · rename_i hany
    rw [List.filter_append]
    have hl : l.filter (fun p => p.1 = k) = [] := by
      rw [List.filter_eq_nil_iff]
      intro q hq
      simp only [decide_eq_true_eq]
      intro hqk
      rw [List.any_eq_true] at hany
      exact hany ⟨q, hq, by simp [hqk]⟩
    simp [hl]

/-! ### Plumbing: which fields each Synchronizer statement touches -/

theorem mergeEntityMention_strategies (g : Graph) (sid : String) (item : EntRec) :
    (mergeEntityMention g sid item).strategies = g.strategies := by
  by_cases h : (g.entities.any fun e => e.name = item.name.getD "") = true
  · simp [mergeEntityMention, h]
  · simp only [Bool.not_eq_true] at h
    simp [mergeEntityMention, h]

theorem mergeEntityMention_researches (g : Graph) (sid : String) (item : EntRec) :
    (mergeEntityMention g sid item).researches = g.researches := by
  by_cases h : (g.entities.any fun e => e.name = item.name.getD "") = true
  · simp [mergeEntityMention, h]
  · simp only [Bool.not_eq_true] at h
    simp [mergeEntityMention, h]

theorem fold_mention_strategies (batch : List EntRec) (g : Graph) (sid : String) :
    (batch.foldl (fun h item => mergeEntityMention h sid item) g).strategies
      = g.strategies := by
  induction batch generalizing g with
  | nil => rfl
  | cons i t ih => rw [List.foldl_cons, ih, mergeEntityMention_strategies]

theorem fold_mention_researches (batch : List EntRec) (g : Graph) (sid : String) :
    (batch.foldl (fun h item => mergeEntityMention h sid item) g).researches
      = g.researches := by
  induction batch generalizing g with
  | nil => rfl
  | cons i t ih => rw [List.foldl_cons, ih, mergeEntityMention_researches]

theorem runQueryEntities_strategies (g : Graph) (vid : String) (batch : List EntRec) :
    (runQueryEntities g vid batch).strategies = g.strategies := by
  unfold runQueryEntities
  split
  · exact fold_mention_strategies batch g (vid ++ "_strat")
  · rfl

theorem runQueryEntities_researches (g : Graph) (vid : String) (batch : List EntRec) :
    (runQueryEntities g vid batch).researches = g.researches := by
  unfold runQueryEntities
  split
  · exact fold_mention_researches batch g (vid ++ "_strat")
  · rfl

theorem sync_strategies (g : Graph) (vid s r : String) (now : Nat) (es : List EntRec) :
    (sync_to_neo4j true false g vid s r now es).strategies
      = upsert g.strategies (vid ++ "_strat") s := by
  show (if (valid_entities es).isEmpty then runQueryBase g vid s r now
      else runQueryEntities (runQueryBase g vid s r now) vid (valid_entities es)).strategies = _
  split
  · rfl
  · rw [runQueryEntities_strategies]
    rfl

theorem sync_researches (g : Graph) (vid s r : String) (now : Nat) (es : List EntRec) :
    (sync_to_neo4j true false g vid s r now es).researches
      = upsert g.researches (vid ++ "_res") r := by
  show (if (valid_entities es).isEmpty then runQueryBase g vid s r now
      else runQueryEntities (runQueryBase g vid s r now) vid (valid_entities es)).researches = _
  split
  · rfl
  · rw [runQueryEntities_researches]
    rfl

/-- C1: reprocessing the same case identifier twice with two different
brief texts leaves exactly one `Strategy` node keyed `vid ++ "_strat"`
(and exactly one `Research` node keyed `vid ++ "_res"`), the strategy
content being the second call's text and the research content the second
call's dossier: the merge overwrites, never duplicates. -/
theorem C1_sync_idempotent_overwrite (g : Graph) (vid s1 s2 r1 r2 : String)
    (t1 t2 : Nat) (e1 e2 : List EntRec)
    (hs : (g.strategies.map Prod.fst).Nodup)
    (hr : (g.researches.map Prod.fst).Nodup)
    (hdiff : s1 ≠ s2) :
    (sync_to_neo4j true false (sync_to_neo4j true false g vid s1 r1 t1 e1)
        vid s2 r2 t2 e2).strategies.filter (fun p => p.1 = vid ++ "_strat")
      = [(vid ++ "_strat", s2)]
    ∧ (sync_to_neo4j true false (sync_to_neo4j true false g vid s1 r1 t1 e1)
        vid s2 r2 t2 e2).researches.filter (fun p => p.1 = vid ++ "_res")
      = [(vid ++ "_res", r2)] := by
  constructor
  · rw [sync_strategies, sync_strategies]
    exact filter_upsert_self _ _ _ (upsert_keys_nodup _ _ _ hs)
  · rw [sync_researches, sync_researches]
    exact filter_upsert_self _ _ _ (upsert_keys_nodup _ _ _ hr)

/-- Witness for C1 at a concrete input: the empty graph, id `"v"`, briefs
`"brief one"` then `"brief two"`. -/
theorem C1_witness :
    (sync_to_neo4j true false (sync_to_neo4j true false emptyGraph "v" "brief one" "res one" 0 [])
        "v" "brief two" "res two" 1 []).strategies.filter (fun p => p.1 = "v" ++ "_strat")
      = [("v" ++ "_strat", "brief two")]
    ∧ (sync_to_neo4j true false (sync_to_neo4j true false emptyGraph "v" "brief one" "res one" 0 [])
        "v" "brief two" "res two" 1 []).researches.filter (fun p => p.1 = "v" ++ "_res")
      = [("v" ++ "_res", "res two")] :=
  C1_sync_idempotent_overwrite emptyGraph "v" "brief one" "brief two" "res one" "res two"
    0 1 [] [] (by simp [emptyGraph]) (by simp [emptyGraph]) (by decide)


/-! ### C4: the pre-sync entity filter -/

/-- C4: for every entity list, the Synchronizer's pre-sync filter keeps a
record iff it came from the list and carries both a `name` and a `type`
key; records lacking either key are excluded from the merge batch. -/
theorem C4_presync_filter (es : List EntRec) (e : EntRec) :
    e ∈ valid_entities es ↔ e ∈ es ∧ e.name.isSome = true ∧ e.type.isSome = true := by
  simp [valid_entities, List.mem_filter, Bool.and_eq_true]

/-! ### C8: the Text Normalizer on empty input -/

/-- C8 counterexample: on empty input the processor's `clean_json_text`
does not return the claimed empty-object token `"\x7b\x7d"`. -/
theorem C8_counterexample : clean_json_text "" ≠ "\x7b\x7d" := by decide

/-- C8 (amended): the Text Normalizer is total and never throws on string
input, but on empty input it returns the empty string (downstream
`json.loads` then raises and is handled by each caller's handler); fenced
input is unwrapped as specified. -/
theorem C8_empty_and_fenced :
    clean_json_text "" = ""
    ∧ clean_json_text "```json\n\x7b\"k\": 1\x7d\n```" = "\x7b\"k\": 1\x7d" := by
  constructor
  · decide
  · decide

/-! ### C3: the Scout drops failed questions -/

/-- C3 (code-bug evaluation): with three questions where the second
request returns HTTP 500, the dossier keeps the blocks of the first and
third questions but contains no block at all for the failed question: the
placeholder answer assigned in the failure branch is never appended. -/
theorem C3_failing_input_eval :
    strContains (execute_research_plan
        (ScoutPlan.plist ["Cost?", "Implementation?", "Security?"])
        (fun q => if q = "Implementation?" then FetchResult.apiError 500
                  else FetchResult.success ("answer for " ++ q))) "Q: Cost?" = true
    ∧ strContains (execute_research_plan
        (ScoutPlan.plist ["Cost?", "Implementation?", "Security?"])
        (fun q => if q = "Implementation?" then FetchResult.apiError 500
                  else FetchResult.success ("answer for " ++ q))) "Q: Security?" = true
    ∧ strContains (execute_research_plan
        (ScoutPlan.plist ["Cost?", "Implementation?", "Security?"])
        (fun q => if q = "Implementation?" then FetchResult.apiError 500
                  else FetchResult.success ("answer for " ++ q))) "Q: Implementation?" = false := by
  refine ⟨by decide, by decide, by decide⟩

/-! ### C7: the Architect never raises past its boundary -/

/-- C7: every failure path of the Architect returns `(None, [])` with
nothing persisted, and a structured-parse failure (when the save section
does not itself fail) falls back to the raw cleaned text as brief, an
empty entity list, and the `{video_id}_strategy_fallback.md` filename. -/
theorem C7_architect_failure_paths (apiFail fileWriteFail : Bool)
    (raw : String) (parse : String → Option JVal) (vid : String) :
    ((synthesize_strategy apiFail fileWriteFail raw parse vid).brief = none →
      synthesize_strategy apiFail fileWriteFail raw parse vid
        = ⟨none, [], none⟩)
    ∧ (parse (clean_json_text raw) = none → apiFail = false → fileWriteFail = false →
        synthesize_strategy apiFail fileWriteFail raw parse vid
          = ⟨some (clean_json_text raw), [], some (vid ++ "_strategy_fallback.md")⟩) := by
  constructor
  · intro hb
    unfold synthesize_strategy at hb ⊢
    by_cases hA : apiFail = true
    · simp [hA]
    · simp only [hA, Bool.false_eq_true, if_false, if_neg] at hb ⊢
      rcases hm : architect_inner (parse (clean_json_text raw)) with _ | ⟨smart, cj, ents⟩
      · simp only [hm] at hb ⊢
        by_cases hF : fileWriteFail = true
        · simp [hF]
        · simp [hF] at hb
      · simp only [hm] at hb ⊢
        cases cj with
        | jstr c =>
          by_cases hF : fileWriteFail = true
          · simp [hF]
          · simp [hF] at hb
        | jnull => rfl
        | jbool b => rfl
        | jnum i => rfl
        | jarr xs => rfl
        | jobj fs => rfl
  · intro hp hA hF
    subst hA; subst hF
    unfold synthesize_strategy
    simp only [hp]
    rfl

/-- Witness for C7 at a concrete input: an unparseable response body. -/
theorem C7_witness :
    synthesize_strategy false false "not structured at all" (fun _ => none) "vid"
      = ⟨some (clean_json_text "not structured at all"), [],
          some ("vid" ++ "_strategy_fallback.md")⟩ :=
  (C7_architect_failure_paths false false "not structured at all" (fun _ => none) "vid").2
    rfl rfl rfl


/-! ### C10: object parsed without a content field -/

/-- C10 counterexample: an object that lacks `content` but carries a
truthy `marketing` yields a non-empty brief (the marketing section is
appended to the empty default), and the Run Controller then does sync and
mark — so "lacks a content field" alone does not give an empty-string
brief and a skipped video. -/
theorem C10_counterexample :
    (synthesize_strategy false false "x"
        (fun _ => some (.jobj [("marketing",
            .jobj [("viral_tweet", .jstr "hook"), ("linkedin", .jstr "post")])]))
        "vid").brief = some (marketingSection "hook" "post")
    ∧ marketingSection "hook" "post" ≠ ""
    ∧ (run_pipeline emptyGraph [] "vid" (some "t") false false "x"
        (fun _ => some (.jobj [("marketing",
            .jobj [("viral_tweet", .jstr "hook"), ("linkedin", .jstr "post")])]))
        "r" true false 0).marked = true := by
  refine ⟨rfl, by decide, rfl⟩

/-- C10 (amended): if the response parses to an object that lacks a
`content` field and whose `marketing` value is absent or falsy, the stage
returns an empty-string brief together with the extracted entities, and
the Run Controller — testing the brief for truthiness — performs neither
the sync nor the history mark: the video stays unprocessed and its
entities are discarded. -/
theorem C10_no_content_no_marketing (fs : List (String × JVal))
    (vid raw research t : String) (g : Graph) (hist : List String)
    (cfg dbF : Bool) (now : Nat) (parse : String → Option JVal)
    (hparse : parse (clean_json_text raw) = some (.jobj fs))
    (hcontent : jget fs "content" = none)
    (hmk : jtruthy ((jget fs "marketing").getD (.jobj [])) = false)
    (ht : t ≠ "") :
    (synthesize_strategy false false raw parse vid).brief = some ""
    ∧ (synthesize_strategy false false raw parse vid).entities = entsOf fs
    ∧ (run_pipeline g hist vid (some t) false false raw parse research cfg dbF now).marked
        = false
    ∧ (run_pipeline g hist vid (some t) false false raw parse research cfg dbF now).synced
        = false
    ∧ (run_pipeline g hist vid (some t) false false raw parse research cfg dbF now).history
        = hist := by
  have harch : architect_inner (parse (clean_json_text raw))
      = some (pyStr ((jget fs "filename").getD (.jstr "strategy.md")), .jstr "", entsOf fs) := by
    rw [hparse]
    unfold architect_inner
    simp only [Option.bind, firstIfList]
    rw [show (jget fs "content").getD (.jstr "") = .jstr "" by rw [hcontent]; rfl]
    simp [hmk, hcontent]
  have hout : synthesize_strategy false false raw parse vid
      = ⟨some "", entsOf fs,
          some (vid ++ "_" ++ pyStr ((jget fs "filename").getD (.jstr "strategy.md")))⟩ := by
    unfold synthesize_strategy
    simp only [harch]
    rfl
  refine ⟨by rw [hout], by rw [hout], ?_, ?_, ?_⟩
  all_goals
    unfold run_pipeline
    simp [ht, hout]

/-- Witness for C10 at a concrete input: the parsed object is `\x7b\x7d`
(no `content`, no `marketing`). -/
theorem C10_witness :
    (synthesize_strategy false false "x" (fun _ => some (.jobj [])) "vid").brief = some ""
    ∧ (synthesize_strategy false false "x" (fun _ => some (.jobj [])) "vid").entities
        = entsOf []
    ∧ (run_pipeline emptyGraph [] "vid" (some "t") false false "x"
        (fun _ => some (.jobj [])) "r" true false 0).marked = false
    ∧ (run_pipeline emptyGraph [] "vid" (some "t") false false "x"
        (fun _ => some (.jobj [])) "r" true false 0).synced = false
    ∧ (run_pipeline emptyGraph [] "vid" (some "t") false false "x"
        (fun _ => some (.jobj [])) "r" true false 0).history = [] :=
  C10_no_content_no_marketing [] "vid" "x" "r" "t" emptyGraph [] true false 0
    (fun _ => some (.jobj [])) rfl rfl rfl (by decide)

/-! ### C9: when history is marked -/

/-- C9: the case identifier is appended to history exactly when the
transcript loads truthy and the Architect returns a non-empty brief; the
sync-error flag (caught inside `sync_to_neo4j`) does not affect the mark;
the sync is attempted exactly when the mark happens (a missing brief
prevents both); and the history gains exactly the one id when marked. -/
theorem C9_mark_exactly_on_brief (g : Graph) (hist : List String) (vid : String)
    (loadResult : Option String) (apiFail fileWriteFail : Bool) (raw : String)
    (parse : String → Option JVal) (research : String) (cfg dbF : Bool) (now : Nat) :
    ((run_pipeline g hist vid loadResult apiFail fileWriteFail raw parse research
        cfg dbF now).marked = true
      ↔ (∃ t, loadResult = some t ∧ t ≠ "")
        ∧ (∃ b, (synthesize_strategy apiFail fileWriteFail raw parse vid).brief = some b
            ∧ b ≠ ""))
    ∧ (run_pipeline g hist vid loadResult apiFail fileWriteFail raw parse research
        cfg true now).marked
      = (run_pipeline g hist vid loadResult apiFail fileWriteFail raw parse research
        cfg false now).marked
    ∧ (run_pipeline g hist vid loadResult apiFail fileWriteFail raw parse research
        cfg dbF now).synced
      = (run_pipeline g hist vid loadResult apiFail fileWriteFail raw parse research
        cfg dbF now).marked
    ∧ (run_pipeline g hist vid loadResult apiFail fileWriteFail raw parse research
        cfg dbF now).history
      = (if (run_pipeline g hist vid loadResult apiFail fileWriteFail raw parse research
          cfg dbF now).marked then hist ++ [vid] else hist) := by
  unfold run_pipeline
  rcases loadResult with _ | t
  · simp
  · by_cases ht : t = ""
    · simp [ht]
    · rcases hb : (synthesize_strategy apiFail fileWriteFail raw parse vid).brief with _ | b
      · simp [ht, hb]
      · by_cases hbe : b = ""
        · simp [ht, hb, hbe]
        · simp [ht, hb, hbe]

/-! ### C5: the Refiner always marks after the triple loop -/

theorem applyTriple_strategies (g : Graph) (t : Triple) :
    (applyTriple g t).strategies = g.strategies := by
  simp only [applyTriple]
  split <;> split <;> rfl

theorem fold_triples_strategies (rels : List Triple) (g : Graph)
    (ok : Triple → Bool) :
    (rels.foldl (fun h r => if ok r then applyTriple h r else h) g).strategies
      = g.strategies := by
  induction rels generalizing g with
  | nil => rfl
  | cons r t ih =>
    rw [List.foldl_cons, ih]
    by_cases hr : ok r = true
    · simp [hr, applyTriple_strategies]
    · simp only [Bool.not_eq_true] at hr
      simp [hr]

theorem mem_mergeElem_self {α : Type} [DecidableEq α] (l : List α) (e : α) :
    e ∈ mergeElem l e := by
  unfold mergeElem
  split
  · assumption
  · simp

/-- C5: for every candidate strategy the Refiner processes, after the
per-triple loop — whichever subset of the identified triples succeeded,
including none — the current-time `RefinerLog` node exists (it was not
there before, by `hnew`) and the `REFINED_BY` edge from the strategy is
present. -/
theorem markRefined_marks (g : Graph) (sid : String) (now : Nat)
    (h : g.strategies.any (fun p => p.1 = sid) = true) :
    now ∈ (markRefined g sid now).refinerLogs
    ∧ (sid, now) ∈ (markRefined g sid now).refinedBy := by
  unfold markRefined
  simp only [h, if_pos]
  exact ⟨mem_mergeElem_self _ _, mem_mergeElem_self _ _⟩

theorem C5_refiner_always_marks (g : Graph) (relationships : List Triple)
    (tripleOk : Triple → Bool) (sid : String) (now : Nat)
    (hsid : g.strategies.any (fun p => p.1 = sid) = true)
    (hnew : now ∉ g.refinerLogs) :
    now ∈ (apply_relationships g relationships tripleOk sid now).refinerLogs
    ∧ (sid, now) ∈ (apply_relationships g relationships tripleOk sid now).refinedBy := by
  refine markRefined_marks _ sid now ?_
  rw [fold_triples_strategies]
  exact hsid

/-- Witness for C5 at a concrete input: one identified triple, every
triple merge failing (`tripleOk` constantly false). -/
theorem C5_witness :
    7 ∈ (apply_relationships { emptyGraph with strategies := [("s1", "text")] }
        [⟨"A", "B", "RUNS_ON"⟩] (fun _ => false) "s1" 7).refinerLogs
    ∧ ("s1", 7) ∈ (apply_relationships { emptyGraph with strategies := [("s1", "text")] }
        [⟨"A", "B", "RUNS_ON"⟩] (fun _ => false) "s1" 7).refinedBy :=
  C5_refiner_always_marks { emptyGraph with strategies := [("s1", "text")] }
    [⟨"A", "B", "RUNS_ON"⟩] (fun _ => false) "s1" 7 (by decide) (by decide)

/-! ### C6: the Refiner's candidate query -/

/-- C6: every row returned by `get_unrefined_strategies` is a strategy
with no outgoing `REFINED_BY` edge, and at most 5 rows are returned. -/
theorem C6_candidate_selection (g : Graph) (s : String × String)
    (hs : s ∈ get_unrefined_strategies g) :
    hasRefinedBy g s.1 = false ∧ (get_unrefined_strategies g).length ≤ 5 := by
  constructor
  · have h1 : s ∈ g.strategies.filter (fun q => !hasRefinedBy g q.1) :=
      List.mem_of_mem_take hs
    have h2 := (List.mem_filter.mp h1).2
    simpa using h2
  · unfold get_unrefined_strategies
    rw [List.length_take]
    exact Nat.min_le_left _ _

/-- Witness for C6 at a concrete input: a graph with one unrefined
strategy. -/
theorem C6_witness :
    hasRefinedBy { emptyGraph with strategies := [("s1", "c1")] } "s1" = false
    ∧ (get_unrefined_strategies { emptyGraph with strategies := [("s1", "c1")] }).length
        ≤ 5 :=
  C6_candidate_selection { emptyGraph with strategies := [("s1", "c1")] } ("s1", "c1")
    (by decide)


/-! ### C2 machinery: entity names and MENTIONS counts under the merge -/

theorem any_name_iff_mem (g : Graph) (nm : String) :
    ((g.entities.any fun e => e.name = nm) = true) ↔ nm ∈ entityNames g := by
  rw [List.any_eq_true]
  constructor
  · rintro ⟨e, he, hname⟩
    simp only [decide_eq_true_eq] at hname
    exact List.mem_map.mpr ⟨e, he, hname⟩
  · intro hm
    obtain ⟨e, he, hname⟩ := List.mem_map.mp hm
    exact ⟨e, he, by simp [hname]⟩

theorem merge_entities_eq (g : Graph) (sid : String) (item : EntRec) :
    (mergeEntityMention g sid item).entities
      = if (g.entities.any fun e => e.name = item.name.getD "") = true
        then g.entities.map (fun e =>
          if e.name = item.name.getD "" then { e with type := item.type } else e)
        else g.entities ++ [⟨item.name.getD "", item.type⟩] := by
  by_cases h : (g.entities.any fun e => e.name = item.name.getD "") = true
  · simp [mergeEntityMention, h]
  · simp only [Bool.not_eq_true] at h
    simp [mergeEntityMention, h]

theorem merge_mentions_eq (g : Graph) (sid : String) (item : EntRec) :
    (mergeEntityMention g sid item).mentions
      = mergeElem g.mentions (sid, item.name.getD "", item.detail) := by
  by_cases h : (g.entities.any fun e => e.name = item.name.getD "") = true
  · simp [mergeEntityMention, h]
  · simp only [Bool.not_eq_true] at h
    simp [mergeEntityMention, h]

theorem entityNames_merge (g : Graph) (sid : String) (item : EntRec) :
    entityNames (mergeEntityMention g sid item)
      = if item.name.getD "" ∈ entityNames g then entityNames g
        else entityNames g ++ [item.name.getD ""] := by
  rw [show entityNames (mergeEntityMention g sid item)
      = (mergeEntityMention g sid item).entities.map (fun e => e.name) from rfl]
  rw [merge_entities_eq]
  by_cases h : (g.entities.any fun e => e.name = item.name.getD "") = true
  · rw [if_pos h, if_pos ((any_name_iff_mem g _).mp h)]
    rw [List.map_map]
    apply List.map_congr_left
    intro e _
    by_cases he : e.name = item.name.getD ""
    · simp [he]
    · simp [he]
  · rw [if_neg h, if_neg (fun hm => h ((any_name_iff_mem g _).mpr hm))]
    simp [entityNames]

theorem entityNames_merge_nodup (g : Graph) (sid : String) (item : EntRec)
    (h : (entityNames g).Nodup) :
    (entityNames (mergeEntityMention g sid item)).Nodup := by
  rw [entityNames_merge]
  split
  · exact h
  · rename_i hm
    rw [List.nodup_append]
    exact ⟨h, List.nodup_singleton _, by simpa using hm⟩

theorem mem_entityNames_merge_mono (g : Graph) (sid : String) (item : EntRec)
    (x : String) (h : x ∈ entityNames g) :
    x ∈ entityNames (mergeEntityMention g sid item) := by
  rw [entityNames_merge]
  split
  · exact h
  · exact List.mem_append_left _ h

theorem self_mem_entityNames_merge (g : Graph) (sid : String) (item : EntRec) :
    item.name.getD "" ∈ entityNames (mergeEntityMention g sid item) := by
  rw [entityNames_merge]
  split
  · assumption
  · simp

theorem fold_merge_nodup (batch : List EntRec) (g : Graph) (sid : String)
    (h : (entityNames g).Nodup) :
    (entityNames (batch.foldl (fun h item => mergeEntityMention h sid item) g)).Nodup := by
  induction batch generalizing g with
  | nil => exact h
  | cons r t ih => exact ih _ (entityNames_merge_nodup g sid r h)

theorem fold_merge_mem_mono (batch : List EntRec) (g : Graph) (sid : String)
    (x : String) (h : x ∈ entityNames g) :
    x ∈ entityNames (batch.foldl (fun h item => mergeEntityMention h sid item) g) := by
  induction batch generalizing g with
  | nil => exact h
  | cons r t ih => exact ih _ (mem_entityNames_merge_mono g sid r x h)

theorem fold_merge_mem_of_batch (batch : List EntRec) (g : Graph) (sid n : String)
    (h : ∃ r ∈ batch, r.name.getD "" = n) :
    n ∈ entityNames (batch.foldl (fun h item => mergeEntityMention h sid item) g) := by
  induction batch generalizing g with
  | nil => obtain ⟨r, hr, _⟩ := h; cases hr
  | cons r t ih =>
    obtain ⟨q, hq, hqn⟩ := h
    rcases List.mem_cons.mp hq with rfl | hqt
    · rw [List.foldl_cons]
      exact fold_merge_mem_mono t _ sid n (hqn ▸ self_mem_entityNames_merge g sid q)
    · exact ih _ ⟨q, hqt, hqn⟩

theorem mentionCount_merge_mono (g : Graph) (sid : String) (item : EntRec)
    (s n : String) :
    mentionCount g s n ≤ mentionCount (mergeEntityMention g sid item) s n := by
  unfold mentionCount
  rw [merge_mentions_eq]
  unfold mergeElem
  split
  · exact le_refl _
  · rw [List.countP_append]
    omega

theorem mentionCount_merge_upper (g : Graph) (sid : String) (item : EntRec)
    (s n : String) :
    mentionCount (mergeEntityMention g sid item) s n
      ≤ mentionCount g s n + (if sid = s ∧ item.name.getD "" = n then 1 else 0) := by
  unfold mentionCount
  rw [merge_mentions_eq]
  unfold mergeElem
  split
  · exact Nat.le_add_right _ _
  · by_cases hc : sid = s ∧ item.name.getD "" = n
    · rw [if_pos hc, List.countP_append, List.countP_cons, List.countP_nil]
      split <;> omega
    · rw [if_neg hc, List.countP_append, List.countP_cons, List.countP_nil]
      split
      · rename_i hb
        simp only [Bool.and_eq_true, decide_eq_true_eq] at hb
        exact absurd hb hc
      · omega

theorem mentionCount_merge_hit (g : Graph) (sid : String) (item : EntRec)
    (n : String) (hn : item.name.getD "" = n) :
    1 ≤ mentionCount (mergeEntityMention g sid item) sid n := by
  unfold mentionCount
  rw [merge_mentions_eq]
  unfold mergeElem
  split
  · rename_i hmem
    apply List.countP_pos_iff.mpr
    exact ⟨(sid, item.name.getD "", item.detail), hmem, by simp [hn]⟩
  · apply List.countP_pos_iff.mpr
    refine ⟨(sid, item.name.getD "", item.detail), ?_, ?_⟩
    · exact List.mem_append_right _ (by simp)
    · simp [hn]

theorem fold_mentionCount_mono (batch : List EntRec) (g : Graph) (sid s n : String) :
    mentionCount g s n
      ≤ mentionCount (batch.foldl (fun h item => mergeEntityMention h sid item) g) s n := by
  induction batch generalizing g with
  | nil => exact le_refl _
  | cons r t ih =>
    rw [List.foldl_cons]
    exact le_trans (mentionCount_merge_mono g sid r s n) (ih _)

theorem fold_mentionCount_upper (batch : List EntRec) (g : Graph) (sid s n : String) :
    mentionCount (batch.foldl (fun h item => mergeEntityMention h sid item) g) s n
      ≤ mentionCount g s n
        + (if sid = s then batch.countP (fun r => r.name.getD "" = n) else 0) := by
  induction batch generalizing g with
  | nil =>
    simp only [List.foldl_nil]
    exact Nat.le_add_right _ _
  | cons r t ih =>
    rw [List.foldl_cons]
    have h1 := ih (mergeEntityMention g sid r)
    have h2 := mentionCount_merge_upper g sid r s n
    by_cases hs : sid = s
    · subst hs
      rw [if_pos rfl] at h1 ⊢
      by_cases hr : r.name.getD "" = n
      · rw [if_pos ⟨rfl, hr⟩] at h2
        have hcc : (r :: t).countP (fun q => q.name.getD "" = n)
            = t.countP (fun q => q.name.getD "" = n) + 1 := by
          rw [List.countP_cons]
          simp [hr]
        rw [hcc]
        omega
      · rw [if_neg (fun hc => hr hc.2)] at h2
        have hcc : (r :: t).countP (fun q => q.name.getD "" = n)
            = t.countP (fun q => q.name.getD "" = n) := by
          rw [List.countP_cons]
          simp [hr]
        rw [hcc]
        omega
    · rw [if_neg hs] at h1 ⊢
      rw [if_neg (fun hc => hs hc.1)] at h2
      omega

theorem fold_mentionCount_hit (batch : List EntRec) (g : Graph) (sid n : String)
    (h : ∃ r ∈ batch, r.name.getD "" = n) :
    1 ≤ mentionCount (batch.foldl (fun h item => mergeEntityMention h sid item) g) sid n := by
  induction batch generalizing g with
  | nil => obtain ⟨r, hr, _⟩ := h; cases hr
  | cons r t ih =>
    obtain ⟨q, hq, hqn⟩ := h
    rcases List.mem_cons.mp hq with rfl | hqt
    · rw [List.foldl_cons]
      exact le_trans (mentionCount_merge_hit g sid q n hqn) (fold_mentionCount_mono t _ sid sid n)
    · exact ih _ ⟨q, hqt, hqn⟩

theorem fold_mentionCount_other (batch : List EntRec) (g : Graph) (sid s n : String)
    (hs : sid ≠ s) :
    mentionCount (batch.foldl (fun h item => mergeEntityMention h sid item) g) s n
      = mentionCount g s n := by
  have h1 := fold_mentionCount_upper batch g sid s n
  have h2 := fold_mentionCount_mono batch g sid s n
  rw [if_neg hs] at h1
  omega


/-! ### C2: sync-level lemmas -/

theorem sync_eq_cases (g : Graph) (vid st r : String) (now : Nat) (es : List EntRec) :
    sync_to_neo4j true false g vid st r now es
      = if (valid_entities es).isEmpty then runQueryBase g vid st r now
        else runQueryEntities (runQueryBase g vid st r now) vid (valid_entities es) := rfl

theorem runQueryEntities_on_base (g : Graph) (vid st r : String) (now : Nat)
    (batch : List EntRec) :
    runQueryEntities (runQueryBase g vid st r now) vid batch
      = batch.foldl (fun h item => mergeEntityMention h (vid ++ "_strat") item)
          (runQueryBase g vid st r now) := by
  have hc : ((runQueryBase g vid st r now).strategies.any
      fun p => p.1 = vid ++ "_strat") = true := by
    show ((upsert g.strategies (vid ++ "_strat") st).any
      fun p => p.1 = vid ++ "_strat") = true
    exact upsert_key_mem _ _ _
  unfold runQueryEntities
  rw [hc]
  simp

theorem base_entityNames (g : Graph) (vid st r : String) (now : Nat) :
    entityNames (runQueryBase g vid st r now) = entityNames g := rfl

theorem base_mentionCount (g : Graph) (vid st r s n : String) (now : Nat) :
    mentionCount (runQueryBase g vid st r now) s n = mentionCount g s n := rfl

theorem sync_entityNames_nodup (g : Graph) (vid st r : String) (now : Nat)
    (es : List EntRec) (h : (entityNames g).Nodup) :
    (entityNames (sync_to_neo4j true false g vid st r now es)).Nodup := by
  rw [sync_eq_cases]
  split
  · rw [base_entityNames]
    exact h
  · rw [runQueryEntities_on_base]
    exact fold_merge_nodup _ _ _ (by rw [base_entityNames]; exact h)

theorem sync_entityNames_mem_mono (g : Graph) (vid st r : String) (now : Nat)
    (es : List EntRec) (x : String) (h : x ∈ entityNames g) :
    x ∈ entityNames (sync_to_neo4j true false g vid st r now es) := by
  rw [sync_eq_cases]
  split
  · rw [base_entityNames]
    exact h
  · rw [runQueryEntities_on_base]
    exact fold_merge_mem_mono _ _ _ _ (by rw [base_entityNames]; exact h)

theorem valid_entities_not_isEmpty (es : List EntRec) (n : String)
    (h : ∃ q ∈ valid_entities es, q.name.getD "" = n) :
    (valid_entities es).isEmpty = false := by
  obtain ⟨q, hq, _⟩ := h
  cases hve : valid_entities es
  · rw [hve] at hq
    cases hq
  · rfl

theorem sync_entityNames_mem_of_batch (g : Graph) (vid st r : String) (now : Nat)
    (es : List EntRec) (n : String)
    (h : ∃ q ∈ valid_entities es, q.name.getD "" = n) :
    n ∈ entityNames (sync_to_neo4j true false g vid st r now es) := by
  rw [sync_eq_cases, valid_entities_not_isEmpty es n h]
  simp only [Bool.false_eq_true, if_false]
  rw [runQueryEntities_on_base]
  exact fold_merge_mem_of_batch _ _ _ _ h

theorem sync_mentionCount_other (g : Graph) (vid st r : String) (now : Nat)
    (es : List EntRec) (s n : String) (hs : s ≠ vid ++ "_strat") :
    mentionCount (sync_to_neo4j true false g vid st r now es) s n
      = mentionCount g s n := by
  rw [sync_eq_cases]
  split
  · exact base_mentionCount g vid st r s n now
  · rw [runQueryEntities_on_base]
    rw [fold_mentionCount_other _ _ _ _ _ (fun h => hs h.symm)]
    exact base_mentionCount g vid st r s n now

theorem sync_mentionCount_upper (g : Graph) (vid st r : String) (now : Nat)
    (es : List EntRec) (n : String) :
    mentionCount (sync_to_neo4j true false g vid st r now es) (vid ++ "_strat") n
      ≤ mentionCount g (vid ++ "_strat") n
        + (valid_entities es).countP (fun q => q.name.getD "" = n) := by
  rw [sync_eq_cases]
  split
  · rw [base_mentionCount]
    exact Nat.le_add_right _ _
  · rw [runQueryEntities_on_base]
    have := fold_mentionCount_upper (valid_entities es) (runQueryBase g vid st r now)
      (vid ++ "_strat") (vid ++ "_strat") n
    rw [if_pos rfl, base_mentionCount] at this
    exact this

theorem sync_mentionCount_hit (g : Graph) (vid st r : String) (now : Nat)
    (es : List EntRec) (n : String)
    (h : ∃ q ∈ valid_entities es, q.name.getD "" = n) :
    1 ≤ mentionCount (sync_to_neo4j true false g vid st r now es) (vid ++ "_strat") n := by
  rw [sync_eq_cases, valid_entities_not_isEmpty es n h]
  simp only [Bool.false_eq_true, if_false]
  rw [runQueryEntities_on_base]
  exact fold_mentionCount_hit _ _ _ _ h

/-! ### C2: final bridges -/

theorem countP_name_bridge (b : List EntRec) (n : String) :
    (valid_entities b).countP (fun q => q.name = some n)
      = (valid_entities b).countP (fun q => q.name.getD "" = n) := by
  apply List.countP_congr
  intro q hq
  have hs : q.name.isSome = true := by
    have h2 := (List.mem_filter.mp hq).2
    simp only [Bool.and_eq_true] at h2
    exact h2.1
  rcases hname : q.name with _ | m
  · rw [hname] at hs
    cases hs
  · simp [hname]

theorem countP_eq_one_of_nodup_mem (l : List String) (n : String)
    (hnd : l.Nodup) (hm : n ∈ l) : l.countP (fun x => x = n) = 1 := by
  induction l with
  | nil => cases hm
  | cons a t ih =>
    rw [List.countP_cons]
    rcases List.mem_cons.mp hm with rfl | hmt
    · have ht : t.countP (fun x => x = n) = 0 := by
        rw [List.countP_eq_zero]
        intro x hx
        simp only [decide_eq_true_eq]
        rintro rfl
        exact (List.nodup_cons.mp hnd).1 hx
      simp [ht]
    · have ha : a ≠ n := by
        rintro rfl
        exact (List.nodup_cons.mp hnd).1 hmt
      have ht := ih (List.nodup_cons.mp hnd).2 hmt
      simp [ha, ht]

theorem strat_id_injective (v1 v2 : String) (h : v1 ++ "_strat" = v2 ++ "_strat") :
    v1 = v2 := by
  have hd := congrArg String.data h
  simp only [String.data_append] at hd
  exact String.ext (List.append_cancel_right hd)

theorem exists_name_of_countP_one (b : List EntRec) (n : String)
    (h : (valid_entities b).countP (fun q => q.name = some n) = 1) :
    ∃ q ∈ valid_entities b, q.name.getD "" = n := by
  rw [countP_name_bridge] at h
  have hpos : 0 < (valid_entities b).countP (fun q => q.name.getD "" = n) := by omega
  obtain ⟨q, hq, hpq⟩ := List.countP_pos_iff.mp hpos
  exact ⟨q, hq, by simpa using hpq⟩

/-- C2: two distinct videos whose (filtered) entity batches each contain
exactly one record named `n` produce, from a graph with deduplicated
entity names and no pre-existing `MENTIONS` edges from either strategy to
`n`, exactly one `Entity` node named `n` with exactly one incoming
`MENTIONS` edge from each video's Strategy node: entity name is the sole
dedup key. -/
theorem C2_entity_name_sole_dedup_key (g : Graph) (vid1 vid2 n : String)
    (s1 r1 s2 r2 : String) (t1 t2 : Nat) (b1 b2 : List EntRec)
    (hvid : vid1 ≠ vid2)
    (hnd : (entityNames g).Nodup)
    (hb1 : (valid_entities b1).countP (fun q => q.name = some n) = 1)
    (hb2 : (valid_entities b2).countP (fun q => q.name = some n) = 1)
    (hm1 : mentionCount g (vid1 ++ "_strat") n = 0)
    (hm2 : mentionCount g (vid2 ++ "_strat") n = 0) :
    entityCount (sync_to_neo4j true false (sync_to_neo4j true false g vid1 s1 r1 t1 b1)
        vid2 s2 r2 t2 b2) n = 1
    ∧ mentionCount (sync_to_neo4j true false (sync_to_neo4j true false g vid1 s1 r1 t1 b1)
        vid2 s2 r2 t2 b2) (vid1 ++ "_strat") n = 1
    ∧ mentionCount (sync_to_neo4j true false (sync_to_neo4j true false g vid1 s1 r1 t1 b1)
        vid2 s2 r2 t2 b2) (vid2 ++ "_strat") n = 1 := by
  have hkey : vid1 ++ "_strat" ≠ vid2 ++ "_strat" :=
    fun h => hvid (strat_id_injective vid1 vid2 h)
  have hx1 := exists_name_of_countP_one b1 n hb1
  have hx2 := exists_name_of_countP_one b2 n hb2
  refine ⟨?_, ?_, ?_⟩
  · have hmem1 : n ∈ entityNames (sync_to_neo4j true false g vid1 s1 r1 t1 b1) :=
      sync_entityNames_mem_of_batch g vid1 s1 r1 t1 b1 n hx1
    have hmem2 := sync_entityNames_mem_mono _ vid2 s2 r2 t2 b2 n hmem1
    have hnd2 := sync_entityNames_nodup _ vid2 s2 r2 t2 b2
      (sync_entityNames_nodup g vid1 s1 r1 t1 b1 hnd)
    exact countP_eq_one_of_nodup_mem _ n hnd2 hmem2
  · have hupper := sync_mentionCount_upper g vid1 s1 r1 t1 b1 n
    rw [hm1, ← countP_name_bridge, hb1] at hupper
    have hlower := sync_mentionCount_hit g vid1 s1 r1 t1 b1 n hx1
    have hone : mentionCount (sync_to_neo4j true false g vid1 s1 r1 t1 b1)
        (vid1 ++ "_strat") n = 1 := by omega
    rw [sync_mentionCount_other _ vid2 s2 r2 t2 b2 _ n hkey]
    exact hone
  · have hzero : mentionCount (sync_to_neo4j true false g vid1 s1 r1 t1 b1)
        (vid2 ++ "_strat") n = 0 := by
      rw [sync_mentionCount_other g vid1 s1 r1 t1 b1 _ n (fun h => hkey h.symm)]
      exact hm2
    have hupper := sync_mentionCount_upper (sync_to_neo4j true false g vid1 s1 r1 t1 b1)
      vid2 s2 r2 t2 b2 n
    rw [hzero, ← countP_name_bridge, hb2] at hupper
    have hlower := sync_mentionCount_hit (sync_to_neo4j true false g vid1 s1 r1 t1 b1)
      vid2 s2 r2 t2 b2 n hx2
    omega

/-- Witness for C2 at a concrete input: the empty graph, videos `"v1"`
and `"v2"`, both batches mentioning the entity `"Claude"`. -/
theorem C2_witness :
    entityCount (sync_to_neo4j true false (sync_to_neo4j true false emptyGraph "v1" "b1" "r1" 0
        [⟨some "Claude", some "Model", some "LLM"⟩])
        "v2" "b2" "r2" 1 [⟨some "Claude", some "Model", some "flagship"⟩]) "Claude" = 1
    ∧ mentionCount (sync_to_neo4j true false (sync_to_neo4j true false emptyGraph "v1" "b1" "r1" 0
        [⟨some "Claude", some "Model", some "LLM"⟩])
        "v2" "b2" "r2" 1 [⟨some "Claude", some "Model", some "flagship"⟩])
        ("v1" ++ "_strat") "Claude" = 1
    ∧ mentionCount (sync_to_neo4j true false (sync_to_neo4j true false emptyGraph "v1" "b1" "r1" 0
        [⟨some "Claude", some "Model", some "LLM"⟩])
        "v2" "b2" "r2" 1 [⟨some "Claude", some "Model", some "flagship"⟩])
        ("v2" ++ "_strat") "Claude" = 1 :=
  C2_entity_name_sole_dedup_key emptyGraph "v1" "v2" "Claude" "b1" "r1" "b2" "r2" 0 1
    [⟨some "Claude", some "Model", some "LLM"⟩]
    [⟨some "Claude", some "Model", some "flagship"⟩]
    (by decide) (by simp [emptyGraph, entityNames]) (by decide) (by decide)
    (by decide) (by decide)

end ProfitGraph
